import Mathlib

/-!
# Verification of the Oasis SVDAG node-pool examples

A shallow embedding of the `oasis` SVDAG node arena and the operations the
specification describes: the 8-slot node record (`node_t`), its equality and
MurmurHash3-style structural hash, the node pool with compression,
serialization, editor operations (combine / subtract / duplicate_child /
subdivide_child), the scene triangle accessors, and the CLI example's
control flow.

Machine integers are modelled as `Int` (C `int` slots) and `Nat` with
explicit reduction modulo `2^32` / `2^64` where C++ unsigned overflow
matters.  Operations whose bodies ship only in the prebuilt `liboasis.so`
(only declarations appear in the headers) are modelled from the
specification text and marked as such in their doc comments.
-/

namespace Oasis

/-- The node record `oasis::node_t<int>`: a fixed `std::array<int, 8>` of
child slots, default-initialised to zero.  Modelled with eight named `Int`
fields `c0 .. c7` in slot order. -/
structure node_t where
  c0 : Int := 0
  c1 : Int := 0
  c2 : Int := 0
  c3 : Int := 0
  c4 : Int := 0
  c5 : Int := 0
  c6 : Int := 0
  c7 : Int := 0
  deriving DecidableEq, Repr, BEq

namespace node_t

/-- The children array in slot order, as a list (used for hashing and
serialization, which walk the eight slots in order). -/
def toList (n : node_t) : List Int :=
  [n.c0, n.c1, n.c2, n.c3, n.c4, n.c5, n.c6, n.c7]

/-- `children[i]` for `i : Fin 8`. -/
def slot (n : node_t) (i : Fin 8) : Int :=
  n.toList.getD i.val 0

/-- `children[i] = v`, returning the updated node. -/
def setSlot (n : node_t) (i : Fin 8) (v : Int) : node_t :=
  if i.val = 0 then { n with c0 := v }
  else if i.val = 1 then { n with c1 := v }
  else if i.val = 2 then { n with c2 := v }
  else if i.val = 3 then { n with c3 := v }
  else if i.val = 4 then { n with c4 := v }
  else if i.val = 5 then { n with c5 := v }
  else if i.val = 6 then { n with c6 := v }
  else { n with c7 := v }

/-- A node all eight of whose slots hold the same value `v` (used by
`subdivide_child` and the subtraction recursion). -/
def node8 (v : Int) : node_t :=
  ⟨v, v, v, v, v, v, v, v⟩

/-- `node_t::operator==`: component-wise comparison of the two
`std::array<int, 8>` children arrays. -/
def eqOp (a b : node_t) : Bool :=
  a.c0 == b.c0 && a.c1 == b.c1 && a.c2 == b.c2 && a.c3 == b.c3 &&
  a.c4 == b.c4 && a.c5 == b.c5 && a.c6 == b.c6 && a.c7 == b.c7

/-- `node_t::has_value`: true iff some child slot differs from `T() = 0`. -/
def has_value (n : node_t) : Bool :=
  n.toList.any (fun c => c != 0)

/-- `node_t::operator bool`: the implicit conversion to `bool` returns
`has_value()`. -/
def toBool (n : node_t) : Bool :=
  n.has_value

/-- `node_t::null()`: the default node, all eight slots zero. -/
def null : node_t := {}

/-- `node_t::value(size_t index)`: returns `children[index]` when
`index < children.size()` (which is 8), otherwise throws
`std::out_of_range("Index is out of range")`.  The throw is modelled as
`Except.error`. -/
def value_at (n : node_t) (index : Nat) : Except String Int :=
  if h : index < 8 then .ok (n.slot ⟨index, h⟩)
  else .error "Index is out of range"

end node_t

/-! ## Structural hash (`murmur_hasher32_t` and `std::hash<node_t<int>>`) -/

/-- Reduction modulo `2^32`, the wrap-around of C++ `uint32_t` arithmetic. -/
def mod32 (x : Nat) : Nat := x % 4294967296

/-- 32-bit left-rotation `(k << s) | (k >> (32 - s))` of a value `< 2^32`. -/
def rotl32 (x s : Nat) : Nat :=
  mod32 (x <<< s) ||| (x >>> (32 - s))

/-- One iteration of the `murmur_hasher32_t::operator()` loop body:
`k *= 0xcc9e2d51; k = rotl32(k,15); k *= 0x1b873593; h ^= k;
h = rotl32(h,13); h = h*5 + 0xe6546b64`. -/
def murmurMix (h k : Nat) : Nat :=
  let k1 := mod32 (k * 0xcc9e2d51)
  let k2 := rotl32 k1 15
  let k3 := mod32 (k2 * 0x1b873593)
  let h1 := h ^^^ k3
  let h2 := rotl32 h1 13
  mod32 (h2 * 5 + 0xe6546b64)

/-- The tail of `murmur_hasher32_t::operator()`:
`h ^= len; h ^= h>>16; h *= 0x85ebca6b; h ^= h>>13; h *= 0xc2b2ae35;
h ^= h>>16`. -/
def murmurFinal (h len : Nat) : Nat :=
  let h1 := h ^^^ mod32 len
  let h2 := h1 ^^^ (h1 >>> 16)
  let h3 := mod32 (h2 * 0x85ebca6b)
  let h4 := h3 ^^^ (h3 >>> 13)
  let h5 := mod32 (h4 * 0xc2b2ae35)
  h5 ^^^ (h5 >>> 16)

/-- `murmur_hasher32_t::operator()(std::span<const uint32_t>)`: seed
`h = 0`, mix every word of the span in order, then finalise with the span
length. -/
def murmur_hasher32 (words : List Nat) : Nat :=
  murmurFinal (words.foldl murmurMix 0) words.length

/-- The `reinterpret_cast<const uint32_t*>` view of one `int` slot: the
two's-complement bit pattern of a 32-bit `int` read as `uint32_t`, i.e. the
value modulo `2^32`. -/
def intToWord (v : Int) : Nat :=
  (v % 4294967296).toNat

/-- `std::hash<oasis::node_t<int>>::operator()`: `murmur_hasher32_t`
applied to the eight child slots reinterpreted as eight 32-bit unsigned
words in slot order. -/
def hashNode (n : node_t) : Nat :=
  murmur_hasher32 (n.toList.map intToWord)

/-- The hash computation exactly as the specification words it (§4.2 /
§6): seed `h = 0`; for each of the eight slot words `k` in slot order,
`k *= 0xcc9e2d51; k = rotl32(k,15); k *= 0x1b873593; h ^= k;
h = rotl32(h,13); h = h*5 + 0xe6546b64`; finalisation
`h ^= 8; h ^= h>>16; h *= 0x85ebca6b; h ^= h>>13; h *= 0xc2b2ae35;
h ^= h>>16`.  Written independently of `murmur_hasher32` so the two can be
compared. -/
def hashNodeSpec (n : node_t) : Nat :=
  let w0 := intToWord n.c0
  let w1 := intToWord n.c1
  let w2 := intToWord n.c2
  let w3 := intToWord n.c3
  let w4 := intToWord n.c4
  let w5 := intToWord n.c5
  let w6 := intToWord n.c6
  let w7 := intToWord n.c7
  let h := murmurMix (murmurMix (murmurMix (murmurMix (murmurMix (murmurMix
             (murmurMix (murmurMix 0 w0) w1) w2) w3) w4) w5) w6) w7
  let h1 := h ^^^ 8
  let h2 := h1 ^^^ (h1 >>> 16)
  let h3 := mod32 (h2 * 0x85ebca6b)
  let h4 := h3 ^^^ (h3 >>> 13)
  let h5 := mod32 (h4 * 0xc2b2ae35)
  h5 ^^^ (h5 >>> 16)

/-! ## The node pool -/

/-- `oasis::node_pool`: the append-only arena, a `std::vector<node_t<int>>`. -/
structure node_pool where
  m_nodes : List node_t := []
  deriving DecidableEq, Repr

namespace node_pool

/-- `node_pool::size()`: the number of nodes in the pool. -/
def size (p : node_pool) : Nat :=
  p.m_nodes.length

/-- Node lookup by index (reads past the end return the null node; every
use below is guarded by an index bound). -/
def nodeAt (p : node_pool) (i : Nat) : node_t :=
  p.m_nodes.getD i node_t.null

end node_pool

/-! ## Serialization

The writer is in the example source (`dag_node_pool::create`): it writes
`size_t voxel_count` (8 bytes) followed by `voxel_count *
sizeof(node_t<int>)` bytes of raw node data — each node is eight 32-bit
`int`s, and the byte order is the host's (little-endian on the targeted
platforms).  Bytes are modelled as `Nat` values below 256. -/

/-- The eight little-endian bytes of a `size_t` (64-bit) count. -/
def bytesOfU64 (n : Nat) : List Nat :=
  [n % 256, (n >>> 8) % 256, (n >>> 16) % 256, (n >>> 24) % 256,
   (n >>> 32) % 256, (n >>> 40) % 256, (n >>> 48) % 256, (n >>> 56) % 256]

/-- Reassemble a 64-bit count from its eight little-endian bytes. -/
def decodeU64 (b0 b1 b2 b3 b4 b5 b6 b7 : Nat) : Nat :=
  b0 + 256 * b1 + 65536 * b2 + 16777216 * b3 + 4294967296 * b4 +
  1099511627776 * b5 + 281474976710656 * b6 + 72057594037927936 * b7

/-- The four little-endian bytes of one 32-bit `int` slot (its
two's-complement bit pattern). -/
def encodeI32 (v : Int) : List Nat :=
  let w := intToWord v
  [w % 256, (w >>> 8) % 256, (w >>> 16) % 256, (w >>> 24) % 256]

/-- Reassemble a 32-bit word from four little-endian bytes. -/
def decodeWord (b0 b1 b2 b3 : Nat) : Nat :=
  b0 + 256 * b1 + 65536 * b2 + 16777216 * b3

/-- Read a 32-bit word back as a signed `int` (two's complement). -/
def wordToInt (w : Nat) : Int :=
  if w < 2147483648 then (w : Int) else (w : Int) - 4294967296

/-- The 32 bytes of one node record: the eight slots in slot order, four
little-endian bytes each — the raw `sizeof(node_t<int>)` image the writer
dumps. -/
def encodeNode (n : node_t) : List Nat :=
  encodeI32 n.c0 ++ encodeI32 n.c1 ++ encodeI32 n.c2 ++ encodeI32 n.c3 ++
  encodeI32 n.c4 ++ encodeI32 n.c5 ++ encodeI32 n.c6 ++ encodeI32 n.c7

/-- The node records of the arena, in order. -/
def encodeNodes (nodes : List node_t) : List Nat :=
  nodes.foldr (fun n acc => encodeNode n ++ acc) []

/-- The full binary arena image written by `dag_node_pool::create`:
`count` as an unsigned 64-bit integer at offset 0, then the `count` node
records. -/
def serialize (p : node_pool) : List Nat :=
  bytesOfU64 p.size ++ encodeNodes p.m_nodes

/-- Parse one 32-byte node record off the front of a byte list. -/
def parseNode (bytes : List Nat) : Option (node_t × List Nat) :=
  match bytes with
  | a0 :: a1 :: a2 :: a3 :: b0 :: b1 :: b2 :: b3 ::
    c0 :: c1 :: c2 :: c3 :: d0 :: d1 :: d2 :: d3 ::
    e0 :: e1 :: e2 :: e3 :: f0 :: f1 :: f2 :: f3 ::
    g0 :: g1 :: g2 :: g3 :: h0 :: h1 :: h2 :: h3 :: rest =>
      some (⟨wordToInt (decodeWord a0 a1 a2 a3), wordToInt (decodeWord b0 b1 b2 b3),
             wordToInt (decodeWord c0 c1 c2 c3), wordToInt (decodeWord d0 d1 d2 d3),
             wordToInt (decodeWord e0 e1 e2 e3), wordToInt (decodeWord f0 f1 f2 f3),
             wordToInt (decodeWord g0 g1 g2 g3), wordToInt (decodeWord h0 h1 h2 h3)⟩, rest)
  | _ => none

/-- Parse exactly `count` node records, consuming the whole byte list. -/
def parseNodes : Nat → List Nat → Option (List node_t)
  | 0, [] => some []
  | 0, _ :: _ => none
  | count + 1, bytes =>
      match parseNode bytes with
      | some (n, rest) => (parseNodes count rest).map (n :: ·)
      | none => none

/-- Check that every positive child slot is a strictly in-range index
(`0 < v → v < count`), the validation the spec demands of readers. -/
def validIndexes (count : Nat) (nodes : List node_t) : Bool :=
  nodes.all fun n => n.toList.all fun v => decide (v ≤ 0) || decide (v < (count : Int))

/-- Modelled from the spec: the payload step of `node_pool::deserialize`
(§4.1/§6) — reject the file (*CorruptArena*) when the payload after the
count is not exactly `32·count` bytes, read the `count` records of eight
signed 32-bit integers, and reject any out-of-range positive child
index. -/
def deserializeBody (count : Nat) (rest : List Nat) : Except String node_pool :=
  if rest.length = 32 * count then
    (parseNodes count rest).elim (.error "CorruptArena") fun nodes =>
      if validIndexes count nodes then .ok ⟨nodes⟩
      else .error "CorruptArena"
  else .error "CorruptArena"

/-- Modelled from the spec: `node_pool::deserialize` — the reader's body
is not in `src/` (only the declaration is), so this follows §4.1/§6: read
the unsigned 64-bit `count` at offset 0 (rejecting a file shorter than 8
bytes), then process the payload with `deserializeBody`. -/
def deserialize (bytes : List Nat) : Except String node_pool :=
  match bytes with
  | b0 :: b1 :: b2 :: b3 :: b4 :: b5 :: b6 :: b7 :: rest =>
      deserializeBody (decodeU64 b0 b1 b2 b3 b4 b5 b6 b7) rest
  | _ => .error "CorruptArena"

/-- The slots a 32-bit C `int` can hold. -/
def i32Range (v : Int) : Prop :=
  -2147483648 ≤ v ∧ v < 2147483648

instance : DecidablePred i32Range := fun v => by
  unfold i32Range; infer_instance

/-- All eight slots of a node are in 32-bit `int` range. -/
def node_t.inRange (n : node_t) : Prop :=
  ∀ v ∈ n.toList, i32Range v

instance (n : node_t) : Decidable n.inRange := by
  unfold node_t.inRange; infer_instance

/-! ## Compression

`node_pool::compress` ships only as a declaration in `src/` (the body is
in the prebuilt library), so it is modelled from the spec's algorithm
(§4.1): walk nodes low index → high, maintain a mapping *old index → new
index* and a map *node contents → new index*; rewrite each node's positive
slots through the mapping, reuse the index of an already-present rewritten
node, otherwise append it.  The contents map is modelled as a linear
search of the output list (semantically what the hash map provides). -/

/-- Rewrite one child slot through the *old index → new index* mapping:
positive slots are looked up, zero and negative slots pass through. -/
def remapSlot (mapping : List Int) (v : Int) : Int :=
  if 0 < v then mapping.getD v.toNat 0 else v

/-- Rewrite all positive slots of a node through the mapping. -/
def rewriteNode (mapping : List Int) (n : node_t) : node_t :=
  ⟨remapSlot mapping n.c0, remapSlot mapping n.c1, remapSlot mapping n.c2,
   remapSlot mapping n.c3, remapSlot mapping n.c4, remapSlot mapping n.c5,
   remapSlot mapping n.c6, remapSlot mapping n.c7⟩

/-- The compression walk: `pending` are the old nodes still to process,
`acc` the rewritten output arena so far, `mapping` the new index of every
already-processed old node. -/
def compressLoop : List node_t → List node_t → List Int → List node_t
  | [], acc, _ => acc
  | n :: pending, acc, mapping =>
      let m := rewriteNode mapping n
      match acc.findIdx? (fun x => decide (x = m)) with
      | some j => compressLoop pending acc (mapping ++ [(j : Int)])
      | none => compressLoop pending (acc ++ [m]) (mapping ++ [(acc.length : Int)])

/-- Modelled from the spec: `node_pool::compress()` (§4.1), deduplicating
the arena so no two nodes are structurally equal. -/
def compress (p : node_pool) : node_pool :=
  ⟨compressLoop p.m_nodes [] []⟩

/-! ## Editor operations

The bodies of `node_pool::shift_indexes`, `node_pool_editor::combine`,
`subtract`, `duplicate_child` and `subdivide_child` are likewise not in
`src/` (headers declare them; the library implements them), so each is
modelled from the spec (§4.1, §4.4). -/

/-- Modelled from the spec: `node_pool::shift_indexes(int size)` — add
`delta` to every **positive** child slot of every node; negative and zero
slots are untouched (§4.1). -/
def shift_indexes (p : node_pool) (delta : Int) : node_pool :=
  ⟨p.m_nodes.map fun n =>
    ⟨if 0 < n.c0 then n.c0 + delta else n.c0,
     if 0 < n.c1 then n.c1 + delta else n.c1,
     if 0 < n.c2 then n.c2 + delta else n.c2,
     if 0 < n.c3 then n.c3 + delta else n.c3,
     if 0 < n.c4 then n.c4 + delta else n.c4,
     if 0 < n.c5 then n.c5 + delta else n.c5,
     if 0 < n.c6 then n.c6 + delta else n.c6,
     if 0 < n.c7 then n.c7 + delta else n.c7⟩⟩

/-- Modelled from the spec: the recursive fusion step of `combine` (§4.4,
step 3), with explicit fuel for termination (the fuel is at least the node
count + 1 at the top call, which suffices on acyclic arenas).  For each
octant: both sides positive → recurse; this side empty → take the other
side's slot; other side empty → keep; both present with a leaf involved →
`overwrite` decides (true takes `other`'s slot, false keeps `self`'s). -/
def recursive_combine : Nat → Bool → Nat → Nat → List node_t → List node_t
  | 0, _, _, _, nodes => nodes
  | fuel + 1, ow, ai, bi, nodes =>
      let step : List node_t → Fin 8 → List node_t := fun ns s =>
        let an := ns.getD ai node_t.null
        let bn := ns.getD bi node_t.null
        let a := an.slot s
        let b := bn.slot s
        if 0 < a ∧ 0 < b then recursive_combine fuel ow a.toNat b.toNat ns
        else if a = 0 then ns.set ai (an.setSlot s b)
        else if b = 0 then ns
        else if ow then ns.set ai (an.setSlot s b)
        else ns
      step (step (step (step (step (step (step (step nodes 0) 1) 2) 3) 4) 5) 6) 7

/-- Modelled from the spec: the recursive subtraction step (§4.4).  For
each octant: `other` empty → retain `self`'s subtree; `self` empty →
empty; both positive → recurse; `self` leaf against `other` internal →
subdivide the leaf into eight identical leaf children (appending the new
node) and descend; `other` leaf against anything else non-empty → the
octant becomes empty (slot 0). -/
def recursive_subtract : Nat → Nat → Nat → List node_t → List node_t
  | 0, _, _, nodes => nodes
  | fuel + 1, ai, bi, nodes =>
      let step : List node_t → Fin 8 → List node_t := fun ns s =>
        let an := ns.getD ai node_t.null
        let bn := ns.getD bi node_t.null
        let a := an.slot s
        let b := bn.slot s
        if b = 0 then ns
        else if a = 0 then ns
        else if 0 < a ∧ 0 < b then recursive_subtract fuel a.toNat b.toNat ns
        else if a < 0 ∧ 0 < b then
          let ni := ns.length
          let ns1 := (ns ++ [node_t.node8 a]).set ai (an.setSlot s (ni : Int))
          recursive_subtract fuel ni b.toNat ns1
        else ns.set ai (an.setSlot s 0)
      step (step (step (step (step (step (step (step nodes 0) 1) 2) 3) 4) 5) 6) 7

/-- Modelled from the spec: `node_pool_editor::combine(node_pool other,
bool overwrite, bool recompress)` (§4.4) — shift a copy of `other`'s
positive indices by `self.size()`, append its nodes, fuse recursively from
the two roots (when both pools are non-empty), and compress when asked. -/
def combineFull (self other : node_pool) (overwrite recompress : Bool) : node_pool :=
  let shifted := shift_indexes other (self.size : Int)
  let nodes := self.m_nodes ++ shifted.m_nodes
  let fused :=
    if self.size = 0 ∨ other.size = 0 then nodes
    else recursive_combine (nodes.length + 1) overwrite (self.size - 1) (nodes.length - 1) nodes
  if recompress then ⟨compressLoop fused [] []⟩ else ⟨fused⟩

/-- Modelled from the spec: `node_pool_editor::subtract(node_pool other,
bool recompress)` (§4.4) — shift and append as in `combine`, subtract
recursively from the two roots, and compress when asked. -/
def subtractFull (self other : node_pool) (recompress : Bool) : node_pool :=
  let shifted := shift_indexes other (self.size : Int)
  let nodes := self.m_nodes ++ shifted.m_nodes
  let fused :=
    if self.size = 0 ∨ other.size = 0 then nodes
    else recursive_subtract (nodes.length + 1) (self.size - 1) (nodes.length - 1) nodes
  if recompress then ⟨compressLoop fused [] []⟩ else ⟨fused⟩

/-- The two pools visible to a caller of an editor operation: the editor's
own pool (`self`) and the argument pool the caller still holds. -/
structure pools_world where
  self : node_pool
  other : node_pool
  deriving DecidableEq, Repr

/-- A call `self.combine(other, overwrite, recompress)`: the C++ signature
takes `other` **by value** (`void combine(node_pool other, ...)`), so the
callee operates on a copy and the caller's pool is returned unchanged. -/
def combine_call (w : pools_world) (overwrite recompress : Bool) : pools_world :=
  { self := combineFull w.self w.other overwrite recompress, other := w.other }

/-- A call `self.subtract(other, recompress)`: `other` is likewise taken
by value. -/
def subtract_call (w : pools_world) (recompress : Bool) : pools_world :=
  { self := subtractFull w.self w.other recompress, other := w.other }

/-- Modelled from the spec: `node_pool_editor::duplicate_child(parent_index,
child_index)` (§4.4, §7) — when `parent.children[child_slot]` is a positive
index, append a copy of the node it references, repoint the parent slot at
the copy, and return the new index; otherwise *NotFound* (`std::nullopt`). -/
def duplicate_child (p : node_pool) (parent_index : Nat) (s : Fin 8) :
    Option (node_pool × Nat) :=
  let parent := p.nodeAt parent_index
  let c := parent.slot s
  if 0 < c then
    let child := p.nodeAt c.toNat
    let ni := p.m_nodes.length
    some (⟨(p.m_nodes ++ [child]).set parent_index (parent.setSlot s (ni : Int))⟩, ni)
  else none

/-- Modelled from the spec: `node_pool_editor::subdivide_child(parent_index,
child_index)` (§4.4, §7) — when `parent.children[child_slot]` is a positive
index, append a new node all eight of whose slots equal that slot value,
repoint the parent slot at it, and return the new index; otherwise
*NotFound* (`std::nullopt`). -/
def subdivide_child (p : node_pool) (parent_index : Nat) (s : Fin 8) :
    Option (node_pool × Nat) :=
  let parent := p.nodeAt parent_index
  let c := parent.slot s
  if 0 < c then
    let ni := p.m_nodes.length
    some (⟨(p.m_nodes ++ [node_t.node8 c]).set parent_index (parent.setSlot s (ni : Int))⟩, ni)
  else none

/-! ## The scene triangle accessors (`oasis::scene`)

Only the fields the triangle accessors read are modelled; the vertex type
(`glm::vec3`, floating point) is kept abstract as a type parameter `V` —
the accessors never inspect coordinates, only positions and counts. -/

/-- `oasis::indexed_tri_t`: an indexed triangle record. -/
structure indexed_tri_t where
  vertices_idx : Fin 3 → Nat
  tex_coord_idx : Fin 3 → Nat
  normals_idx : Fin 3 → Nat
  material_idx : Nat

/-- The parts of `oasis::scene` the triangle accessors touch: the indexed
triangle list `m_indexed_tris` and the raw (non-indexed) vertex list
`m_triangles`, which stores three `glm::vec3` entries per raw triangle. -/
structure scene (V : Type) where
  m_indexed_tris : List indexed_tri_t := []
  m_triangles : List V := []

/-- `scene::get_triangles_count()`: `!m_indexed_tris.empty() ?
m_indexed_tris.size() : m_triangles.size()`. -/
def get_triangles_count {V : Type} (s : scene V) : Nat :=
  if s.m_indexed_tris.isEmpty then s.m_triangles.length else s.m_indexed_tris.length

/-- `scene::get_triangle(id)`: `std::nullopt` when
`id * 3 >= m_triangles.size()`, otherwise a span of the three entries
starting at `m_triangles[id * 3]`. -/
def get_triangle {V : Type} (s : scene V) (id : Nat) : Option (List V) :=
  if s.m_triangles.length ≤ id * 3 then none
  else some ((s.m_triangles.drop (id * 3)).take 3)

/-- `scene::get_raw_triangles_count()`: `m_triangles.size() / 3`. -/
def get_raw_triangles_count {V : Type} (s : scene V) : Nat :=
  s.m_triangles.length / 3

/-! ## The CLI example (`main` and `dag_node_pool::create`)

The example's control flow is modelled over the observable outcomes of its
collaborator calls: whether `scene::load` succeeds and whether the output
`std::ofstream` opens.  `load_textures` failure and the depth argument are
carried through faithfully: neither influences any branch that decides the
process exit code. -/

/-- The outcome of one `dag_node_pool::create(...)` call:
`returned` is the `bool` the function returns, `wrote_file` records
whether the arena bytes were written.  Faithful to the source: when the
output stream fails to open the function logs
"Failed to write SVDAG file." but still returns `true`. -/
def create_result (scene_load_ok out_file_ok : Bool) : Bool × Bool :=
  if scene_load_ok = false then (false, false)
  else if out_file_ok then (true, true)
  else (true, false)

/-- One invocation of the example's `main`. -/
structure cli_invocation where
  argc : Nat
  scene_load_ok : Bool
  out_file_ok : Bool
  depth : Int

/-- The exit code of the example's `main`: `1` when fewer than three
positional arguments are supplied or `create` returns `false`, else `0`.
The depth argument is parsed (`std::atoi`) but never validated or compared
anywhere on the path to the exit code. -/
def main_exit (inv : cli_invocation) : Nat :=
  if inv.argc < 4 then 1
  else if (create_result inv.scene_load_ok inv.out_file_ok).1 then 0
  else 1

/-! ## Theorems -/

/-- C1: for all nodes `a` and `b` of type `node_t<int>`, if `a == b`
(component-wise equality of the eight child slots) then the `std::hash`
specialization for `node_t<int>` gives `hash(a) == hash(b)`. -/
theorem hash_congr_of_eqOp (a b : node_t) (h : node_t.eqOp a b = true) :
    hashNode a = hashNode b := by
  cases a with | mk a0 a1 a2 a3 a4 a5 a6 a7 =>
  cases b with | mk b0 b1 b2 b3 b4 b5 b6 b7 =>
  simp only [node_t.eqOp, Bool.and_eq_true, beq_iff_eq, and_assoc] at h
  obtain ⟨h0, h1, h2, h3, h4, h5, h6, h7⟩ := h
  subst h0 h1 h2 h3 h4 h5 h6 h7
  rfl

/-- Witness for C1 at a concrete pair of equal nodes. -/
theorem hash_congr_of_eqOp_witness :
    hashNode ⟨1, -2, 3, 0, -1, 7, 0, 5⟩ = hashNode ⟨1, -2, 3, 0, -1, 7, 0, 5⟩ :=
  hash_congr_of_eqOp ⟨1, -2, 3, 0, -1, 7, 0, 5⟩ ⟨1, -2, 3, 0, -1, 7, 0, 5⟩ (by decide)

/-- C2: for every `node_t<int>` `n`, `std::hash<node_t<int>>{}(n)` equals
the MurmurHash3 x86 32-bit value obtained by seeding `h = 0`, mixing the
eight child slots reinterpreted as 32-bit unsigned words in slot order
with the schedule `k *= 0xcc9e2d51; k = rotl32(k,15); k *= 0x1b873593;
h ^= k; h = rotl32(h,13); h = h*5 + 0xe6546b64`, then finalising with
`h ^= 8; h ^= h>>16; h *= 0x85ebca6b; h ^= h>>13; h *= 0xc2b2ae35;
h ^= h>>16` (the code's `h ^= word_span.size()` with a span of 8 words). -/
theorem hashNode_matches_spec (n : node_t) : hashNode n = hashNodeSpec n := by
  unfold hashNode murmur_hasher32
  have hlen : (List.map intToWord n.toList).length = 8 := by
    simp [node_t.toList]
  rw [hlen]
  unfold node_t.toList
  rw [List.map_cons, List.map_cons, List.map_cons, List.map_cons,
      List.map_cons, List.map_cons, List.map_cons, List.map_cons, List.map_nil]
  rw [List.foldl_cons, List.foldl_cons, List.foldl_cons, List.foldl_cons,
      List.foldl_cons, List.foldl_cons, List.foldl_cons, List.foldl_cons,
      List.foldl_nil]
  unfold hashNodeSpec murmurFinal mod32
  norm_num

/-- C9: for every node `n` and index `i`, `n.value(i)` returns
`children[i]` when `i < 8` and throws `std::out_of_range` for every
`i >= 8`; the model is total, so it never reads outside the eight-element
slot array. -/
theorem value_at_bounds (n : node_t) (i : Nat) :
    (∀ h : i < 8, node_t.value_at n i = .ok (n.slot ⟨i, h⟩)) ∧
    (8 ≤ i → node_t.value_at n i = .error "Index is out of range") := by
  constructor
  · intro h
    unfold node_t.value_at
    rw [dif_pos h]
  · intro h
    unfold node_t.value_at
    rw [dif_neg (by omega)]

/-- Witness for C9: an in-range and an out-of-range access on a concrete
node. -/
theorem value_at_bounds_witness :
    node_t.value_at ⟨1, 2, 3, 4, 5, 6, 7, -8⟩ 2 = Except.ok 3 ∧
    node_t.value_at ⟨1, 2, 3, 4, 5, 6, 7, -8⟩ 9 =
      Except.error "Index is out of range" :=
  ⟨(value_at_bounds ⟨1, 2, 3, 4, 5, 6, 7, -8⟩ 2).1 (by omega),
   (value_at_bounds ⟨1, 2, 3, 4, 5, 6, 7, -8⟩ 9).2 (by omega)⟩

/-- C10: for every node `n`, `n.has_value()` (and the implicit `bool`
conversion) returns `false` iff `n` equals `node_t::null()`, i.e. iff all
eight child slots are zero. -/
theorem has_value_false_iff_null (n : node_t) :
    (node_t.has_value n = false ↔ n = node_t.null) ∧
    (node_t.toBool n = node_t.has_value n) ∧
    (node_t.has_value n = false ↔ ∀ i : Fin 8, n.slot i = 0) := by
  cases n with | mk c0 c1 c2 c3 c4 c5 c6 c7 =>
  refine ⟨?_, rfl, ?_⟩
  · simp [node_t.has_value, node_t.toList, node_t.null, node_t.mk.injEq]
  · simp only [node_t.has_value, node_t.toList, List.any_cons, List.any_nil,
      Bool.or_eq_false_iff, bne_eq_false_iff_eq]
    constructor
    · rintro ⟨h0, h1, h2, h3, h4, h5, h6, h7, -⟩ i
      fin_cases i <;> simpa [node_t.slot, node_t.toList]
    · intro h
      exact ⟨h 0, h 1, h 2, h 3, h 4, h 5, h 6, h 7, trivial⟩

/-- An all-zero indexed triangle record (concrete data for scenes). -/
def zero_indexed_tri : indexed_tri_t :=
  ⟨fun _ => 0, fun _ => 0, fun _ => 0, 0⟩

/-- A scene holding one indexed triangle but an empty raw triangle
array — the shape `scene::load` produces for purely indexed geometry. -/
def indexed_only_scene : scene Unit :=
  { m_indexed_tris := [zero_indexed_tri], m_triangles := [] }

/-- C7 counterexample: a scene where `get_triangles_count()` returns `1`
(it counts `m_indexed_tris` when that list is non-empty) while
`get_triangle(0)` returns `std::nullopt` (it indexes `m_triangles`, which
is empty) — so an index inside `[0, triangle_count)` is *not* guaranteed a
triangle. -/
theorem get_triangle_inside_count_none :
    0 < get_triangles_count indexed_only_scene ∧
    get_triangle indexed_only_scene 0 = none := by
  constructor
  · decide
  · rfl

/-- C7 (amended): `get_triangle(i)` returns a value exactly when
`i * 3 < m_triangles.size()` — the bound is the raw (non-indexed) vertex
array, not `get_triangles_count()`, which counts indexed triangles when
any are present; when defined it returns the three consecutive entries
starting at `m_triangles[3·i]`. -/
theorem get_triangle_isSome_iff {V : Type} (s : scene V) (i : Nat) :
    ((get_triangle s i).isSome = true ↔ i * 3 < s.m_triangles.length) ∧
    (i * 3 < s.m_triangles.length →
      get_triangle s i = some ((s.m_triangles.drop (i * 3)).take 3)) := by
  constructor
  · unfold get_triangle
    by_cases h : s.m_triangles.length ≤ i * 3
    · rw [if_pos h]
      simp
      omega
    · rw [if_neg h]
      simp
      omega
  · intro h
    unfold get_triangle
    rw [if_neg (by omega)]

/-- Witness for C7 (amended) on a concrete three-entry raw scene. -/
theorem get_triangle_isSome_iff_witness :
    ((get_triangle ({ m_triangles := [(), (), ()] } : scene Unit) 0).isSome = true ↔
      0 * 3 < ({ m_triangles := [(), (), ()] } : scene Unit).m_triangles.length) ∧
    get_triangle ({ m_triangles := [(), (), ()] } : scene Unit) 0 = some [(), (), ()] :=
  ⟨(get_triangle_isSome_iff ({ m_triangles := [(), (), ()] } : scene Unit) 0).1,
   (get_triangle_isSome_iff ({ m_triangles := [(), (), ()] } : scene Unit) 0).2 (by decide)⟩

/-- C8: the CLI does **not** exit `1` on every failure.  With four
arguments, a readable input mesh and an output file that cannot be opened,
`create` logs "Failed to write SVDAG file." yet returns `true`, so `main`
exits `0`; the depth argument is parsed but never validated, so any depth
also exits `0`; missing arguments do exit `1`. -/
theorem main_exit_zero_on_write_failure :
    main_exit ⟨4, true, false, 31⟩ = 0 ∧
    (∀ d : Int, main_exit ⟨4, true, true, d⟩ = 0) ∧
    main_exit ⟨3, true, true, 5⟩ = 1 :=
  ⟨rfl, fun _ => rfl, rfl⟩

/-! ### List access helpers -/

theorem getD_set_self {α : Type} (l : List α) (i : Nat) (x d : α)
    (h : i < l.length) : (l.set i x).getD i d = x := by
  rw [List.getD_eq_getElem _ _ (by simp [h])]
  simp [List.getElem_set, h]

theorem getD_set_ne {α : Type} (l : List α) (i j : Nat) (x d : α)
    (hne : i ≠ j) : (l.set i x).getD j d = l.getD j d := by
  simp [List.getD_eq_getD_get?, List.getElem?_set_ne hne]

theorem getD_append_len {α : Type} (l : List α) (c d : α) :
    (l ++ [c]).getD l.length d = c := by
  rw [List.getD_append_right _ _ _ _ (Nat.le_refl _)]
  simp

theorem slot_setSlot_self (n : node_t) (s : Fin 8) (v : Int) :
    (n.setSlot s v).slot s = v := by
  fin_cases s <;> rfl

/-! ### Compression keeps the arena duplicate-free -/

/-- The dedup lookup returns `none` only when the rewritten node is absent
from the output arena. -/
theorem not_mem_of_findIdx?_none {acc : List node_t} {m : node_t}
    (hf : acc.findIdx? (fun x => decide (x = m)) = none) : m ∉ acc := by
  rw [List.findIdx?_eq_none_iff] at hf
  intro hm
  simpa using hf _ hm

/-- The compression walk never appends a node already present, so a
duplicate-free output arena stays duplicate-free. -/
theorem compressLoop_nodup (pending : List node_t) :
    ∀ (acc : List node_t) (mapping : List Int),
      acc.Nodup → (compressLoop pending acc mapping).Nodup := by
  induction pending with
  | nil =>
    intro acc mapping h
    simpa [compressLoop] using h
  | cons n rest ih =>
    intro acc mapping h
    simp only [compressLoop]
    cases hf : acc.findIdx? (fun x => decide (x = rewriteNode mapping n)) with
    | some j => exact ih acc _ h
    | none =>
      apply ih
      rw [List.nodup_append]
      refine ⟨h, List.nodup_singleton _, fun x hx hx1 => ?_⟩
      have hnm := not_mem_of_findIdx?_none hf
      rw [List.mem_singleton] at hx1
      exact hnm (hx1 ▸ hx)

/-- C3: after `compress()` no two nodes of the arena are structurally
equal (`List.Nodup` is exactly pairwise inequality over the positions),
and the invariant holds for every editor operation that ends with a
recompress — `combine(other, overwrite, true)` and `subtract(other,
true)` both finish with the same compression pass, on any input pools. -/
theorem compress_no_duplicates (p other : node_pool) (overwrite : Bool) :
    (compress p).m_nodes.Nodup ∧
    (combineFull p other overwrite true).m_nodes.Nodup ∧
    (subtractFull p other true).m_nodes.Nodup :=
  ⟨compressLoop_nodup _ _ _ List.nodup_nil,
   compressLoop_nodup _ _ _ List.nodup_nil,
   compressLoop_nodup _ _ _ List.nodup_nil⟩

/-- C4: `combine(other, overwrite, recompress)` and `subtract(other,
recompress)` leave the caller's `other` pool observably unchanged — the
C++ signatures take `other` by value, so the callee works on a copy: the
caller's pool keeps its size and every node its slot values. -/
theorem editor_calls_preserve_other (w : pools_world) (overwrite recompress rc : Bool) :
    ((combine_call w overwrite recompress).other.size = w.other.size ∧
     (∀ i : Nat, (combine_call w overwrite recompress).other.nodeAt i = w.other.nodeAt i)) ∧
    ((subtract_call w rc).other.size = w.other.size ∧
     (∀ i : Nat, (subtract_call w rc).other.nodeAt i = w.other.nodeAt i)) :=
  ⟨⟨rfl, fun _ => rfl⟩, ⟨rfl, fun _ => rfl⟩⟩

/-- C5: for a valid parent index, `duplicate_child(p, s)` and
`subdivide_child(p, s)` return `std::nullopt` exactly when
`parent.children[s]` is not a positive index; when it is positive they
append one node (a copy of the referenced child, resp. a node of eight
copies of the slot value), repoint the parent slot at it, and return the
appended node's index. -/
theorem child_ops_notfound_iff (p : node_pool) (pi : Nat) (s : Fin 8)
    (hpi : pi < p.size) :
    (duplicate_child p pi s = none ↔ ¬ 0 < (p.nodeAt pi).slot s) ∧
    (subdivide_child p pi s = none ↔ ¬ 0 < (p.nodeAt pi).slot s) ∧
    (∀ q ni, duplicate_child p pi s = some (q, ni) →
       q.size = p.size + 1 ∧ ni = p.size ∧
       (q.nodeAt pi).slot s = (ni : Int) ∧
       q.nodeAt ni = p.nodeAt ((p.nodeAt pi).slot s).toNat) ∧
    (∀ q ni, subdivide_child p pi s = some (q, ni) →
       q.size = p.size + 1 ∧ ni = p.size ∧
       (q.nodeAt pi).slot s = (ni : Int) ∧
       q.nodeAt ni = node_t.node8 ((p.nodeAt pi).slot s)) := by
  have hlen : pi < (p.m_nodes ++ [p.nodeAt ((p.nodeAt pi).slot s).toNat]).length := by
    simp [node_pool.size] at hpi
    simp [hpi]
    omega
  by_cases hc : 0 < (p.nodeAt pi).slot s
  · refine ⟨?_, ?_, ?_, ?_⟩
    · unfold duplicate_child
      rw [if_pos hc]
      simp [hc]
    · unfold subdivide_child
      rw [if_pos hc]
      simp [hc]
    · intro q ni hq
      unfold duplicate_child at hq
      rw [if_pos hc] at hq
      injection hq with h1
      injection h1 with h2 h3
      subst h2 h3
      refine ⟨?_, rfl, ?_, ?_⟩
      · simp [node_pool.size]
      · show ((((p.m_nodes ++ _).set pi _).getD pi node_t.null).slot s) = _
        rw [getD_set_self _ _ _ _ (by simpa using hlen)]
        exact slot_setSlot_self _ _ _
      · show (((p.m_nodes ++ _).set pi _).getD p.m_nodes.length node_t.null) = _
        rw [getD_set_ne _ _ _ _ _ (by simp [node_pool.size] at hpi; omega)]
        exact getD_append_len _ _ _
    · intro q ni hq
      unfold subdivide_child at hq
      rw [if_pos hc] at hq
      injection hq with h1
      injection h1 with h2 h3
      subst h2 h3
      refine ⟨?_, rfl, ?_, ?_⟩
      · simp [node_pool.size]
      · show ((((p.m_nodes ++ _).set pi _).getD pi node_t.null).slot s) = _
        rw [getD_set_self _ _ _ _ (by simp [node_pool.size] at hpi; simp [hpi]; omega)]
        exact slot_setSlot_self _ _ _
      · show (((p.m_nodes ++ _).set pi _).getD p.m_nodes.length node_t.null) = _
        rw [getD_set_ne _ _ _ _ _ (by simp [node_pool.size] at hpi; omega)]
        exact getD_append_len _ _ _
  · refine ⟨?_, ?_, ?_, ?_⟩
    · unfold duplicate_child
      rw [if_neg hc]
      simp [hc]
    · unfold subdivide_child
      rw [if_neg hc]
      simp [hc]
    · intro q ni hq
      unfold duplicate_child at hq
      rw [if_neg hc] at hq
      simp at hq
    · intro q ni hq
      unfold subdivide_child at hq
      rw [if_neg hc] at hq
      simp at hq

/-- Witness for C5 on a concrete two-node pool: slot 0 of the root is a
positive index (its operations succeed as described), slot 1 is a leaf
(`-1`, both operations fail with `std::nullopt`). -/
theorem child_ops_notfound_iff_witness :
    duplicate_child ⟨[⟨1, -1, 0, 0, 0, 0, 0, 0⟩, node_t.node8 (-1)]⟩ 0 1 = none ∧
    subdivide_child ⟨[⟨1, -1, 0, 0, 0, 0, 0, 0⟩, node_t.node8 (-1)]⟩ 0 1 = none :=
  ⟨(child_ops_notfound_iff ⟨[⟨1, -1, 0, 0, 0, 0, 0, 0⟩, node_t.node8 (-1)]⟩ 0 1
      (by decide)).1.mpr (by decide),
   (child_ops_notfound_iff ⟨[⟨1, -1, 0, 0, 0, 0, 0, 0⟩, node_t.node8 (-1)]⟩ 0 1
      (by decide)).2.1.mpr (by decide)⟩

/-! ### Serialization round-trip -/

/-- Reassembling the four little-endian bytes of a 32-bit word recovers
the word. -/
theorem decodeWord_encode (w : Nat) (hw : w < 4294967296) :
    decodeWord (w % 256) ((w >>> 8) % 256) ((w >>> 16) % 256) ((w >>> 24) % 256) = w := by
  unfold decodeWord
  simp only [Nat.shiftRight_eq_div_pow]
  omega

/-- Reading a slot's `uint32_t` bit pattern back as a signed 32-bit `int`
recovers the slot. -/
theorem wordToInt_intToWord (v : Int) (h1 : -2147483648 ≤ v)
    (h2 : v < 2147483648) : wordToInt (intToWord v) = v := by
  unfold wordToInt intToWord
  split <;> omega

/-- One slot round-trips through its four serialized bytes. -/
theorem decode_encode_slot (v : Int) (h : i32Range v) :
    wordToInt (decodeWord (intToWord v % 256) ((intToWord v >>> 8) % 256)
      ((intToWord v >>> 16) % 256) ((intToWord v >>> 24) % 256)) = v := by
  have hw : intToWord v < 4294967296 := by
    unfold intToWord
    omega
  rw [decodeWord_encode _ hw]
  exact wordToInt_intToWord v h.1 h.2

/-- `parseNode` on a byte list with at least 32 elements: the first
record's bytes are consumed. -/
theorem parseNode_cons (a0 a1 a2 a3 b0 b1 b2 b3 w0 w1 w2 w3 d0 d1 d2 d3
    e0 e1 e2 e3 f0 f1 f2 f3 g0 g1 g2 g3 k0 k1 k2 k3 : Nat) (rest : List Nat) :
    parseNode (a0 :: a1 :: a2 :: a3 :: b0 :: b1 :: b2 :: b3 ::
      w0 :: w1 :: w2 :: w3 :: d0 :: d1 :: d2 :: d3 ::
      e0 :: e1 :: e2 :: e3 :: f0 :: f1 :: f2 :: f3 ::
      g0 :: g1 :: g2 :: g3 :: k0 :: k1 :: k2 :: k3 :: rest) =
      some (⟨wordToInt (decodeWord a0 a1 a2 a3), wordToInt (decodeWord b0 b1 b2 b3),
             wordToInt (decodeWord w0 w1 w2 w3), wordToInt (decodeWord d0 d1 d2 d3),
             wordToInt (decodeWord e0 e1 e2 e3), wordToInt (decodeWord f0 f1 f2 f3),
             wordToInt (decodeWord g0 g1 g2 g3), wordToInt (decodeWord k0 k1 k2 k3)⟩, rest) :=
  rfl

/-- One node record round-trips: parsing the 32 bytes the writer emits for
a node (whose slots are genuine 32-bit values) yields the node back and
leaves the remaining bytes untouched. -/
theorem parseNode_encodeNode (n : node_t) (hn : n.inRange) (rest : List Nat) :
    parseNode (encodeNode n ++ rest) = some (n, rest) := by
  cases n with | mk c0 c1 c2 c3 c4 c5 c6 c7 =>
  have h0 := hn c0 (by simp [node_t.toList])
  have h1 := hn c1 (by simp [node_t.toList])
  have h2 := hn c2 (by simp [node_t.toList])
  have h3 := hn c3 (by simp [node_t.toList])
  have h4 := hn c4 (by simp [node_t.toList])
  have h5 := hn c5 (by simp [node_t.toList])
  have h6 := hn c6 (by simp [node_t.toList])
  have h7 := hn c7 (by simp [node_t.toList])
  unfold encodeNode encodeI32
  simp only [List.cons_append, List.nil_append]
  rw [parseNode_cons]
  rw [decode_encode_slot c0 h0, decode_encode_slot c1 h1, decode_encode_slot c2 h2,
      decode_encode_slot c3 h3, decode_encode_slot c4 h4, decode_encode_slot c5 h5,
      decode_encode_slot c6 h6, decode_encode_slot c7 h7]

/-- The writer emits exactly 32 bytes per node record. -/
theorem encodeNode_length (n : node_t) : (encodeNode n).length = 32 := by
  cases n
  simp [encodeNode, encodeI32]

/-- The node payload is exactly `32 ·` the node count. -/
theorem encodeNodes_length (nodes : List node_t) :
    (encodeNodes nodes).length = 32 * nodes.length := by
  induction nodes with
  | nil => rfl
  | cons n rest ih =>
    simp only [encodeNodes, List.foldr_cons] at ih ⊢
    simp [encodeNode_length, ih]
    omega

/-- Parsing `count` records from the serialized payload of `count` nodes
recovers the node list. -/
theorem parseNodes_encodeNodes (nodes : List node_t)
    (h : ∀ n ∈ nodes, n.inRange) :
    parseNodes nodes.length (encodeNodes nodes) = some nodes := by
  induction nodes with
  | nil => rfl
  | cons n rest ih =>
    simp only [encodeNodes, List.foldr_cons, List.length_cons]
    have hrec := ih (fun m hm => h m (by simp [hm]))
    simp only [encodeNodes] at hrec
    simp only [parseNodes, parseNode_encodeNode n (h n (by simp)) _, hrec]
    rfl

/-- Reassembling the eight little-endian bytes of a 64-bit count recovers
the count. -/
theorem decodeU64_bytesOfU64 (c : Nat) (h : c < 18446744073709551616) :
    decodeU64 (c % 256) ((c >>> 8) % 256) ((c >>> 16) % 256) ((c >>> 24) % 256)
      ((c >>> 32) % 256) ((c >>> 40) % 256) ((c >>> 48) % 256) ((c >>> 56) % 256) = c := by
  unfold decodeU64
  simp only [Nat.shiftRight_eq_div_pow]
  omega

/-- `deserialize` on a byte stream holding at least the 8-byte count. -/
theorem deserialize_cons (b0 b1 b2 b3 b4 b5 b6 b7 : Nat) (rest : List Nat) :
    deserialize (b0 :: b1 :: b2 :: b3 :: b4 :: b5 :: b6 :: b7 :: rest) =
      deserializeBody (decodeU64 b0 b1 b2 b3 b4 b5 b6 b7) rest :=
  rfl

/-- C6: the serialized binary form of an arena of `count` nodes is `count`
as an unsigned 64-bit integer at offset 0 followed by the `count` node
records of eight signed 32-bit integers each — `8 + 32·count` bytes in
total — and `deserialize` reads exactly this form back (read inverts
write), for any arena whose slots are 32-bit values with in-range positive
child indices and whose count fits `size_t`. -/
theorem serialize_roundtrip (p : node_pool)
    (hcount : p.size < 18446744073709551616)
    (hrange : ∀ n ∈ p.m_nodes, n.inRange)
    (hidx : validIndexes p.size p.m_nodes = true) :
    (serialize p).length = 8 + 32 * p.size ∧
    (serialize p).take 8 = bytesOfU64 p.size ∧
    deserialize (serialize p) = .ok p := by
  refine ⟨?_, ?_, ?_⟩
  · simp [serialize, bytesOfU64, encodeNodes_length, node_pool.size]
    omega
  · show (bytesOfU64 p.size ++ encodeNodes p.m_nodes).take 8 = bytesOfU64 p.size
    rw [show (8 : Nat) = (bytesOfU64 p.size).length by simp [bytesOfU64]]
    exact List.take_left _ _
  · show deserialize (bytesOfU64 p.size ++ encodeNodes p.m_nodes) = .ok p
    unfold bytesOfU64
    simp only [List.cons_append, List.nil_append]
    rw [deserialize_cons, decodeU64_bytesOfU64 _ hcount]
    unfold deserializeBody
    rw [encodeNodes_length]
    rw [if_pos (by simp [node_pool.size])]
    have hp : parseNodes p.size (encodeNodes p.m_nodes) = some p.m_nodes := by
      show parseNodes p.m_nodes.length (encodeNodes p.m_nodes) = some p.m_nodes
      exact parseNodes_encodeNodes _ hrange
    rw [hp]
    simp only [Option.elim]
    rw [if_pos hidx]

/-- Witness for C6 on a concrete one-node arena (a single solid leaf). -/
theorem serialize_roundtrip_witness :
    deserialize (serialize ⟨[node_t.node8 (-1)]⟩) = .ok ⟨[node_t.node8 (-1)]⟩ :=
  (serialize_roundtrip ⟨[node_t.node8 (-1)]⟩ (by decide)
    (by intro n hn; rw [List.mem_singleton] at hn; subst hn; decide) (by decide)).2.2

end Oasis
